import Mathlib

/-!
# The semantic deduplication cache of the sound-effect server

A shallow embedding of `beckand_nodejs/index.js`: the similarity matcher
(`cosineSimilarity`, `findSimilarPhrase`) and the handler of `POST /save-sound-effects`,
followed by the properties proved about them. JavaScript Numbers are IEEE-754 binary64
values with their rounding, a thrown error is an `Except` value, and the external stores
and services are explicit state and functions.
-/

namespace SfxCache

/-! ## JavaScript Numbers -/

/-- A JavaScript Number: an IEEE-754 binary64 value. A finite value is kept as a sign, a
mantissa `m` and a binary exponent `e`, denoting `(-1)^neg * m * 2^e`; every arithmetic
operation below returns the correctly rounded (round-to-nearest, ties-to-even) result with
an odd mantissa, or mantissa 0 and exponent 0 for a zero. Every binary64 value is of this
form (1 is `fin false 1 0`, -1 is `fin true 1 0`, 0.5 is `fin false 1 (-1)`); the type also
holds finite values of more than 53 bits, on which the operations are defined all the same,
so a statement proved for all of `F64` holds for all Numbers. -/
inductive F64 where
  | nan : F64
  | inf (neg : Bool) : F64
  | fin (neg : Bool) (m : Nat) (e : Int) : F64
  deriving DecidableEq

namespace F64

/-- Number of binary digits of `n`, by halving at most `fuel` times. -/
def bitLenAux : Nat → Nat → Nat
  | 0, _ => 0
  | fuel + 1, n => if n = 0 then 0 else bitLenAux fuel (n / 2) + 1

/-- Number of binary digits of `n` (0 for 0). -/
def bitLen (n : Nat) : Nat := bitLenAux n n

/-- Removes the trailing zero bits of a non-zero mantissa, raising the exponent to match. -/
def stripAux : Nat → Nat → Int → Nat × Int
  | 0, m, e => (m, e)
  | fuel + 1, m, e => if m % 2 = 0 then stripAux fuel (m / 2) (e + 1) else (m, e)

/-- The finite value `(-1)^neg * m * 2^e` in its normal form. -/
def mkFin (neg : Bool) (m : Nat) (e : Int) : F64 :=
  if m = 0 then fin neg 0 0
  else
    let p := stripAux m m e
    fin neg p.1 p.2

/-- Rounds the exact value `(-1)^neg * (m + t) * 2^e` to binary64, where `t = 0` when
`sticky` is false and `0 < t < 1` when it is true. A true `sticky` is only passed together
with a mantissa of at least 55 bits, so that `t` lies below the rounding position. -/
def round (neg : Bool) (m : Nat) (e : Int) (sticky : Bool) : F64 :=
  let target : Int := max (e + (bitLen m : Int) - 53) (-1074)
  let s : Nat := (target - e).toNat
  if s = 0 then
    if (bitLen m : Int) + e > 1024 then inf neg else mkFin neg m e
  else
    let q := m / 2 ^ s
    let r := m % 2 ^ s
    let half := 2 ^ (s - 1)
    let up : Bool := decide (half < r) || (decide (r = half) && (sticky || decide (q % 2 = 1)))
    let q1 := if up then q + 1 else q
    if (bitLen q1 : Int) + target > 1024 then inf neg else mkFin neg q1 target

/-- The Number `0` (positive zero). -/
def zero : F64 := fin false 0 0

/-- IEEE-754 addition, the JavaScript `+` on Numbers. -/
def add : F64 → F64 → F64
  | nan, _ => nan
  | _, nan => nan
  | inf a, inf b => if a = b then inf a else nan
  | inf a, fin _ _ _ => inf a
  | fin _ _ _, inf b => inf b
  | fin s1 m1 e1, fin s2 m2 e2 =>
    let e := min e1 e2
    let a := m1 * 2 ^ (e1 - e).toNat
    let b := m2 * 2 ^ (e2 - e).toNat
    if s1 = s2 then round s1 (a + b) e false
    else if a = b then fin false 0 0
    else if b < a then round s1 (a - b) e false
    else round s2 (b - a) e false

/-- IEEE-754 multiplication, the JavaScript `*` on Numbers. -/
def mul : F64 → F64 → F64
  | nan, _ => nan
  | _, nan => nan
  | inf a, inf b => inf (xor a b)
  | inf a, fin b m _ => if m = 0 then nan else inf (xor a b)
  | fin a m _, inf b => if m = 0 then nan else inf (xor a b)
  | fin s1 m1 e1, fin s2 m2 e2 => round (xor s1 s2) (m1 * m2) (e1 + e2) false

/-- IEEE-754 division, the JavaScript `/` on Numbers: `0 / 0` and `∞ / ∞` are NaN. -/
def div : F64 → F64 → F64
  | nan, _ => nan
  | _, nan => nan
  | inf _, inf _ => nan
  | inf a, fin b _ _ => inf (xor a b)
  | fin a _ _, inf b => fin (xor a b) 0 0
  | fin s1 m1 e1, fin s2 m2 e2 =>
    if m2 = 0 then
      if m1 = 0 then nan else inf (xor s1 s2)
    else
      let p := 64 + bitLen m2
      let n := m1 * 2 ^ p
      round (xor s1 s2) (n / m2) (e1 - e2 - (p : Int)) (decide (n % m2 ≠ 0))

/-- Newton iteration for the integer square root, started above the root. -/
def isqrtAux : Nat → Nat → Nat → Nat
  | 0, _, x => x
  | fuel + 1, n, x =>
    let y := (x + n / x) / 2
    if y < x then isqrtAux fuel n y else x

/-- Integer square root: the greatest `r` with `r * r ≤ n`. -/
def isqrt (n : Nat) : Nat :=
  if n = 0 then 0 else isqrtAux n n (2 ^ ((bitLen n + 1) / 2))

/-- IEEE-754 square root, `Math.sqrt`: NaN for a negative argument. -/
def sqrt : F64 → F64
  | nan => nan
  | inf neg => if neg then nan else inf false
  | fin neg m e =>
    if m = 0 then fin neg 0 0
    else if neg then nan
    else
      let e0 : Int := e - e % 2
      let n := m * 2 ^ (e - e0).toNat * 2 ^ 128
      let r := isqrt n
      round false r (e0 / 2 - 64) (decide (r * r ≠ n))

/-- The integer `(-1)^neg * m`. -/
def signed (neg : Bool) (m : Nat) : Int := if neg then -(m : Int) else (m : Int)

/-- The JavaScript `a > b` on Numbers: false as soon as one side is NaN. -/
def gt : F64 → F64 → Bool
  | nan, _ => false
  | _, nan => false
  | inf a, inf b => !a && b
  | inf a, fin _ _ _ => !a
  | fin _ _ _, inf b => b
  | fin s1 m1 e1, fin s2 m2 e2 =>
    let e := min e1 e2
    decide (signed s2 (m2 * 2 ^ (e2 - e).toNat) < signed s1 (m1 * 2 ^ (e1 - e).toNat))

end F64

/-! ## Thrown errors

A JavaScript function that may `throw` returns `Except String _`, the string being the
message of the thrown `Error`. -/

deriving instance DecidableEq for Except

/-! ## The similarity matcher (index.js, lines 82-132) -/

/-- The message of the error thrown by `cosineSimilarity`. -/
def vectorError : String := "Vectors are not properly defined or of unequal length"

/-- Source function `cosineSimilarity(vecA, vecB)`. An argument is `none` when the JavaScript
value is `undefined` or `null` and `some v` when it is an array of Numbers. The guard throws
when an argument is falsy or the lengths differ; an empty array is truthy and passes it.
Both `reduce` calls start from `0`; the lengths being equal, `vecB[idx]` is always defined,
so the first `reduce` runs over the pairs `(vecA[idx], vecB[idx])`. -/
def cosineSimilarity (vecA vecB : Option (List F64)) : Except String F64 :=
  match vecA, vecB with
  | some a, some b =>
    if a.length ≠ b.length then .error vectorError
    else
      let dotProduct := (a.zip b).foldl (fun sum p => F64.add sum (F64.mul p.1 p.2)) F64.zero
      let magnitudeA := F64.sqrt (a.foldl (fun sum x => F64.add sum (F64.mul x x)) F64.zero)
      let magnitudeB := F64.sqrt (b.foldl (fun sum x => F64.add sum (F64.mul x x)) F64.zero)
      .ok (F64.div dotProduct (F64.mul magnitudeA magnitudeB))
  | _, _ => .error vectorError

/-- The JavaScript value found in the `embedding` field of a stored record: absent
(`undefined`/`null`), some value that is not an array, or an array of Numbers. -/
inductive EmbeddingValue where
  | missing : EmbeddingValue
  | notArray : EmbeddingValue
  | array (v : List F64) : EmbeddingValue
  deriving DecidableEq

/-- An element of `existingEmbeddings`: `{ phrase, embedding, downloadURL }`. -/
structure Candidate where
  phrase : String
  embedding : EmbeddingValue
  downloadURL : String
  deriving DecidableEq

/-- The object `{ phrase, similarity, downloadURL }` kept for the best candidate so far. -/
structure SimilarPhrase where
  phrase : String
  similarity : F64
  downloadURL : String
  deriving DecidableEq

/-- The object `{ maxSimilarity, similarPhrase }` returned by `findSimilarPhrase`;
`similarPhrase = none` is the JavaScript `null`. -/
structure MatchResult where
  maxSimilarity : F64
  similarPhrase : Option SimilarPhrase
  deriving DecidableEq

/-- The `for ... of` loop of `findSimilarPhrase`, with the two `let` variables as
accumulators: a candidate whose embedding is falsy or not an array is skipped by `continue`,
an error thrown by `cosineSimilarity` leaves the loop, and the best candidate is replaced
only on a strictly greater similarity. -/
def findSimilarPhraseLoop (newEmbedding : List F64) :
    List Candidate → F64 → Option SimilarPhrase → Except String MatchResult
  | [], maxSimilarity, similarPhrase => .ok ⟨maxSimilarity, similarPhrase⟩
  | c :: rest, maxSimilarity, similarPhrase =>
    match c.embedding with
    | .array embedding =>
      match cosineSimilarity (some embedding) (some newEmbedding) with
      | .error err => .error err
      | .ok similarity =>
        if F64.gt similarity maxSimilarity then
          findSimilarPhraseLoop newEmbedding rest similarity
            (some ⟨c.phrase, similarity, c.downloadURL⟩)
        else findSimilarPhraseLoop newEmbedding rest maxSimilarity similarPhrase
    | _ => findSimilarPhraseLoop newEmbedding rest maxSimilarity similarPhrase

/-- Source function `findSimilarPhrase(existingEmbeddings, newEmbedding)`: the loop started
with `maxSimilarity = 0` and `similarPhrase = null`. The query is an array: the handler
calls it only after its own `Array.isArray(newEmbedding)` check. -/
def findSimilarPhrase (existingEmbeddings : List Candidate) (newEmbedding : List F64) :
    Except String MatchResult :=
  findSimilarPhraseLoop newEmbedding existingEmbeddings F64.zero none

/-- The Number literal `0.9`: the binary64 value nearest to nine tenths. -/
def reuseThreshold : F64 := F64.fin false 8106479329266893 (-53)

/-- The handler's test `maxSimilarity > 0.9 && similarPhrase` (line 153): a non-null
`similarPhrase` object is truthy. -/
def reuseDecision (r : MatchResult) : Bool :=
  F64.gt r.maxSimilarity reuseThreshold && r.similarPhrase.isSome

end SfxCache

namespace SfxCache
namespace F64

/-! ### Order of Numbers -/

/-- The rational value of a finite Number. -/
def toRat (neg : Bool) (m : Nat) (e : Int) : ℚ := (signed neg m : ℚ) * (2 : ℚ) ^ e

/-- Position of a Number on the extended rational line; NaN is given that of `0`. -/
def val : F64 → WithBot (WithTop ℚ)
  | nan => ((0 : ℚ) : WithTop ℚ)
  | inf neg => if neg then ⊥ else ((⊤ : WithTop ℚ) : WithBot (WithTop ℚ))
  | fin neg m e => ((toRat neg m e : ℚ) : WithTop ℚ)

end F64
end SfxCache

namespace SfxCache

/-- The test `Array.isArray(embedding)` of line 118 (a falsy value is not an array). -/
def EmbeddingValue.isArray : EmbeddingValue → Bool
  | .array _ => true
  | _ => false

/-- The similarity that line 122 computes for a candidate against the query: defined when
the candidate's embedding is an array and `cosineSimilarity` returns. -/
def similarityOf (newEmbedding : List F64) (c : Candidate) : Option F64 :=
  match c.embedding with
  | .array embedding =>
    match cosineSimilarity (some embedding) (some newEmbedding) with
    | .ok similarity => some similarity
    | .error _ => none
  | _ => none

end SfxCache

namespace SfxCache

/-! ## The `/save-sound-effects` handler (index.js, lines 101-111 and 134-208)

The record store (Firebase Realtime Database), the blob store (Cloud Storage bucket), the
embedding provider and the generation service are external: the two stores are state, the
two services are functions of the environment, and every call to one of them is appended to
a log. Store operations are taken to succeed. -/

/-- An element of the request's `phrases` array: a string, or any other JavaScript value,
kept by the text that string concatenation gives it. -/
inductive Entry where
  | str (s : String) : Entry
  | other (shown : String) : Entry
  deriving DecidableEq

/-- The text of an entry when it is concatenated into a string or a database path. -/
def Entry.text : Entry → String
  | .str s => s
  | .other shown => shown

/-- The field `phrases` of the request body: absent or falsy, a value that is not an array,
or an array of entries. -/
inductive PhrasesField where
  | missing : PhrasesField
  | notArray : PhrasesField
  | array (items : List Entry) : PhrasesField
  deriving DecidableEq

/-- The object `newSoundEffect` written under `soundEffects/<phrase>`; `createdAt` is kept
as the clock reading instead of its ISO rendering. -/
structure SoundEffect where
  phrase : Entry
  createdAt : Nat
  downloadURL : String
  embedding : EmbeddingValue
  deriving DecidableEq

/-- A call to an external collaborator. -/
inductive Call where
  | loadRecords : Call
  | embed (phrase : Entry) : Call
  | generate (phrase : Entry) : Call
  | saveFile (filename : String) : Call
  | setRecord (key : String) : Call
  deriving DecidableEq

/-- The external state: the children of the database node `soundEffects` in the order in
which `Object.keys` lists them, the files of the bucket, and the log of external calls made
so far. -/
structure World where
  records : List (String × SoundEffect)
  files : List (String × List Nat)
  calls : List Call
  deriving DecidableEq

/-- The external services and the clock seen by one request. -/
structure Env where
  createEmbedding : Entry → Except String EmbeddingValue
  generate : Entry → Except String (List Nat)
  dateNow : Nat
  bucketName : String

/-- The object `{ phrase, downloadURL }` returned for one phrase. -/
structure Item where
  phrase : Entry
  downloadURL : String
  deriving DecidableEq

/-- The HTTP response of the handler. -/
inductive Response where
  | badRequest (error : String) : Response
  | ok (soundEffects : List Item) : Response
  | serverError (error : String) : Response
  deriving DecidableEq

/-- A phrase that names a single child of the node `soundEffects` when it is appended to
the path `'soundEffects/'`: it is not empty and holds no `/` and none of the characters
that a database path may not contain. -/
def isRecordKey (phrase : String) : Bool :=
  phrase.toList ≠ [] && phrase.toList.all (fun c => !(['/', '.', '#', '$', '[', ']'].contains c))

/-- `ref('soundEffects/' + phrase).set(value)` for a phrase that names a single child
(`isRecordKey`): replaces the child with that key or adds it. For another phrase the path
addresses another node (a nested one, or `soundEffects` itself), which this operation does
not describe. Where a new child is listed among the others plays no part in what
follows. -/
def setRecord (key : String) (value : SoundEffect) :
    List (String × SoundEffect) → List (String × SoundEffect)
  | [] => [(key, value)]
  | (k, x) :: rest =>
    if k = key then (k, value) :: rest else (k, x) :: setRecord key value rest

/-- Source function `getExistingEmbeddings()`: one read of `soundEffects`, mapped to
`{ phrase: key, embedding, downloadURL }`; an empty node gives `[]`. -/
def getExistingEmbeddings (w : World) : List Candidate × World :=
  (w.records.map (fun kv => ⟨kv.1, kv.2.embedding, kv.2.downloadURL⟩),
    { w with calls := w.calls ++ [Call.loadRecords] })

/-- The callback of `phrases.map` (lines 143-200) for one phrase, run from its first to its
last statement on the in-memory array `existingEmbeddings` and the external state. It
returns the fulfilled value or the message of the rejection, with the array and the state
it leaves behind. The `if` of line 153 is the test `reuseDecision`; when it holds,
`similarPhrase` is the object whose `downloadURL` is returned. -/
def processPhrase (env : Env) (phrase : Entry) (existingEmbeddings : List Candidate)
    (w : World) : Except String Item × List Candidate × World :=
  let w1 : World := { w with calls := w.calls ++ [Call.embed phrase] }
  match env.createEmbedding phrase with
  | .error err => (.error err, existingEmbeddings, w1)
  | .ok .missing =>
    (.error ("Invalid embedding for phrase \"" ++ phrase.text ++ "\""), existingEmbeddings, w1)
  | .ok .notArray =>
    (.error ("Invalid embedding for phrase \"" ++ phrase.text ++ "\""), existingEmbeddings, w1)
  | .ok (.array newEmbedding) =>
    match findSimilarPhrase existingEmbeddings newEmbedding with
    | .error err => (.error err, existingEmbeddings, w1)
    | .ok r =>
      match reuseDecision r, r.similarPhrase with
      | true, some similarPhrase =>
        (.ok ⟨phrase, similarPhrase.downloadURL⟩, existingEmbeddings, w1)
      | _, _ =>
        let w2 : World := { w1 with calls := w1.calls ++ [Call.generate phrase] }
        match env.generate phrase with
        | .error err => (.error err, existingEmbeddings, w2)
        | .ok audio =>
          let filename := "sound_effects/" ++ phrase.text ++ "_" ++ toString env.dateNow ++ ".mp3"
          let downloadURL :=
            "https://storage.googleapis.com/" ++ env.bucketName ++ "/" ++ filename
          let newSoundEffect : SoundEffect :=
            ⟨phrase, env.dateNow, downloadURL, .array newEmbedding⟩
          let w3 : World :=
            { records := setRecord phrase.text newSoundEffect w2.records
              files := w2.files ++ [(filename, audio)]
              calls := w2.calls ++ [Call.saveFile filename, Call.setRecord phrase.text] }
          (.ok ⟨phrase, downloadURL⟩,
            existingEmbeddings ++ [⟨phrase.text, .array newEmbedding, downloadURL⟩], w3)

/-- The callbacks of all phrases, each run to completion in input order on the shared array.
This is exact for a single phrase, where it is the only schedule. For several phrases the
source starts every callback, up to its embedding request, before any of them continues;
the statements below about several phrases use only what holds in every schedule: the
answer is not status 400, and the first calls are the record load and the embedding request
of the first phrase. -/
def processAll (env : Env) :
    List Entry → List Candidate → World → List (Except String Item) × List Candidate × World
  | [], existingEmbeddings, w => ([], existingEmbeddings, w)
  | phrase :: rest, existingEmbeddings, w =>
    let step := processPhrase env phrase existingEmbeddings w
    let tail := processAll env rest step.2.1 step.2.2
    (step.1 :: tail.1, tail.2.1, tail.2.2)

/-- `Promise.all`: the list of fulfilled values or, when a callback rejects, a rejection;
for a single phrase this is exact, for several the source reports the rejection that comes
first in time, which here is the first in list order. -/
def promiseAll : List (Except String Item) → Except String (List Item)
  | [] => .ok []
  | .error err :: _ => .error err
  | .ok item :: rest =>
    match promiseAll rest with
    | .error err => .error err
    | .ok items => .ok (item :: items)

/-- The handler of `POST /save-sound-effects`: status 400 when `phrases` is falsy, not an
array or empty, before anything else is done; otherwise the records are loaded, the phrases
processed, and the answer is status 200 with the items or status 500 with the first
error. -/
def saveSoundEffects (env : Env) (phrases : PhrasesField) (w : World) : Response × World :=
  match phrases with
  | .missing => (.badRequest "Phrases are required", w)
  | .notArray => (.badRequest "Phrases are required", w)
  | .array [] => (.badRequest "Phrases are required", w)
  | .array (p :: ps) =>
    let loaded := getExistingEmbeddings w
    let done := processAll env (p :: ps) loaded.1 loaded.2
    match promiseAll done.1 with
    | .ok soundEffects => (.ok soundEffects, done.2.2)
    | .error err => (.serverError ("Failed to save sound effects: " ++ err), done.2.2)

/-- The number of calls to the generation service in a log. -/
def generationCalls (calls : List Call) : Nat :=
  (calls.filter (fun c => match c with
    | .generate _ => true
    | _ => false)).length

end SfxCache

namespace SfxCache

/-! ## Concrete inputs used to exercise the handler -/

/-- An empty record store and bucket, and no call made yet. -/
def emptyWorld : World := ⟨[], [], []⟩

/-- An environment whose embedding provider answers every phrase with the vector
`[19, 5, 3, 2, 1]` and whose generation service returns three bytes. -/
def sampleEnv : Env :=
  { createEmbedding := fun _ =>
      .ok (.array [.fin false 19 0, .fin false 5 0, .fin false 3 0, .fin false 1 1,
        .fin false 1 0])
    generate := fun _ => .ok [73, 68, 51]
    dateNow := 1700000000000
    bucketName := "sfx-bucket" }

/-- An environment whose embedding provider answers every phrase with the zero vector
`[0]`. -/
def zeroEnv : Env :=
  { createEmbedding := fun _ => .ok (.array [F64.zero])
    generate := fun _ => .ok [73, 68, 51]
    dateNow := 1700000000000
    bucketName := "sfx-bucket" }

/-- The environment `zeroEnv` five seconds later. -/
def zeroEnvLater : Env := { zeroEnv with dateNow := 1700000005000 }

/-- A snapshot holding the record of "a thunderstorm" with embedding `[1, 0, 0, 0, 0]`
and asset reference "url1"; its similarity to `[19, 5, 3, 2, 1]` is 19/20 = 0.95. -/
def thunderSnapshot : List Candidate :=
  [⟨"a thunderstorm",
    .array [.fin false 1 0, F64.zero, F64.zero, F64.zero, F64.zero], "url1"⟩]

end SfxCache

set_option maxRecDepth 100000

namespace SfxCache
namespace F64

theorem signed_scale (neg : Bool) (m k : Nat) :
    signed neg (m * 2 ^ k) = signed neg m * 2 ^ k := by
  unfold signed
  cases neg <;> simp

theorem toRat_scale (neg : Bool) (m : Nat) (e e0 : Int) (h : e0 ≤ e) :
    toRat neg m e = ((signed neg (m * 2 ^ (e - e0).toNat) : Int) : ℚ) * (2 : ℚ) ^ e0 := by
  unfold toRat
  rw [signed_scale]
  have h2 : ((e - e0).toNat : Int) = e - e0 := Int.toNat_of_nonneg (by omega)
  have h3 : (2 : ℚ) ^ e = (2 : ℚ) ^ ((e - e0).toNat) * (2 : ℚ) ^ e0 := by
    rw [← zpow_natCast, ← zpow_add₀ (by norm_num : (2 : ℚ) ≠ 0), h2]
    congr 1
    omega
  rw [h3]
  push_cast
  ring

theorem gt_fin_iff (s1 : Bool) (m1 : Nat) (e1 : Int) (s2 : Bool) (m2 : Nat) (e2 : Int) :
    gt (fin s1 m1 e1) (fin s2 m2 e2) = true ↔ toRat s2 m2 e2 < toRat s1 m1 e1 := by
  simp only [gt, decide_eq_true_eq]
  rw [toRat_scale s2 m2 e2 (min e1 e2) (min_le_right _ _),
    toRat_scale s1 m1 e1 (min e1 e2) (min_le_left _ _)]
  have hpos : (0 : ℚ) < (2 : ℚ) ^ (min e1 e2) := zpow_pos (by norm_num) _
  rw [mul_lt_mul_right hpos]
  exact Int.cast_lt.symm

theorem gt_iff (a b : F64) :
    gt a b = true ↔ a ≠ nan ∧ b ≠ nan ∧ val b < val a := by
  cases a with
  | nan => simp [gt]
  | inf sa =>
    cases b with
    | nan => simp [gt]
    | inf sb => cases sa <;> cases sb <;> simp [gt, val]
    | fin sb mb eb =>
      cases sa <;> simp [gt, val]
      · exact WithBot.coe_lt_coe.mpr (WithTop.coe_lt_top _)
  | fin sa ma ea =>
    cases b with
    | nan => simp [gt]
    | inf sb =>
      cases sb <;> simp [gt, val]
    | fin sb mb eb =>
      rw [gt_fin_iff]
      simp [val]

theorem gt_irrefl (a : F64) : gt a a = false := by
  cases h : gt a a
  · rfl
  · exact absurd ((gt_iff a a).mp h).2.2 (lt_irrefl _)

theorem gt_trans (a b c : F64) (hab : gt a b = true) (hbc : gt b c = true) :
    gt a c = true := by
  rw [gt_iff] at *
  exact ⟨hab.1, hbc.2.1, lt_trans hbc.2.2 hab.2.2⟩

/-- Negative transitivity: whatever is not above `b` is NaN or below anything above `b`. -/
theorem gt_of_gt_of_not_gt (a b c : F64) (hcb : gt c b = true) (hab : gt a b = false) :
    a = nan ∨ gt c a = true := by
  by_cases ha : a = nan
  · exact Or.inl ha
  · right
    have h1 := (gt_iff c b).mp hcb
    rw [gt_iff]
    refine ⟨h1.1, ha, ?_⟩
    have h2 : ¬ (val b < val a) := by
      intro hlt
      have : gt a b = true := (gt_iff a b).mpr ⟨ha, h1.2.1, hlt⟩
      rw [hab] at this
      exact Bool.false_ne_true this
    exact lt_of_le_of_lt (not_lt.mp h2) h1.2.2

/-- Whatever `a` exceeds is also exceeded by any non-NaN `m` that `a` does not exceed. -/
theorem gt_of_not_gt_of_gt (a m t : F64) (hat : gt a t = true) (ham : gt a m = false)
    (hm : m ≠ nan) : gt m t = true := by
  have h1 := (gt_iff a t).mp hat
  rw [gt_iff]
  refine ⟨hm, h1.2.1, ?_⟩
  have h2 : ¬ (val m < val a) := by
    intro hlt
    have : gt a m = true := (gt_iff a m).mpr ⟨h1.1, hm, hlt⟩
    rw [ham] at this
    exact Bool.false_ne_true this
  exact lt_of_lt_of_le h1.2.2 (not_lt.mp h2)

theorem gt_asymm (a b : F64) (h : gt a b = true) : gt b a = false := by
  cases hba : gt b a
  · rfl
  · have := gt_trans _ _ _ h hba
    rw [gt_irrefl] at this
    exact absurd this Bool.false_ne_true

theorem nan_gt (a : F64) : gt nan a = false := by
  cases a <;> rfl

theorem ne_nan_of_gt (a b : F64) (h : gt a b = true) : a ≠ nan := ((gt_iff a b).mp h).1

theorem mul_comm (a b : F64) : mul a b = mul b a := by
  cases a with
  | nan => cases b <;> rfl
  | inf sa =>
    cases b with
    | nan => rfl
    | inf sb => simp [mul, Bool.xor_comm]
    | fin sb mb eb => simp [mul, Bool.xor_comm]
  | fin sa ma ea =>
    cases b with
    | nan => rfl
    | inf sb => simp [mul, Bool.xor_comm]
    | fin sb mb eb => simp [mul, Bool.xor_comm, Nat.mul_comm ma mb, Int.add_comm ea eb]

/-! ### The model on known values -/

/-- In binary64, 0.1 + 0.2 is 0.30000000000000004. -/
theorem add_tenth_fifth :
    add (fin false 3602879701896397 (-55)) (fin false 3602879701896397 (-54)) =
      fin false 1351079888211149 (-52) := by
  decide

/-- The square root of 2 is 1.4142135623730951. -/
theorem sqrt_two : sqrt (fin false 1 1) = fin false 6369051672525773 (-52) := by
  decide

/-- The quotient 1 / 3 is 0.3333333333333333. -/
theorem div_one_three :
    div (fin false 1 0) (fin false 3 0) = fin false 6004799503160661 (-54) := by
  decide

/-- Division by zero: 0 / 0 is NaN and 1 / 0 is positive infinity. -/
theorem div_by_zero : div zero zero = nan ∧ div (fin false 1 0) zero = inf false := by
  decide

end F64

/-- The literal `0.9` is the rounded quotient 9 / 10. -/
theorem reuseThreshold_eq : F64.div (.fin false 9 0) (.fin false 5 1) = reuseThreshold := by
  decide

end SfxCache

namespace SfxCache
open F64

theorem cosineSimilarity_error_iff (a b : Option (List F64)) :
    cosineSimilarity a b = .error vectorError ↔
      a = none ∨ b = none ∨ ∃ u v, a = some u ∧ b = some v ∧ u.length ≠ v.length := by
  cases a with
  | none => simp [cosineSimilarity]
  | some u =>
    cases b with
    | none => simp [cosineSimilarity]
    | some v =>
      by_cases h : u.length = v.length <;> simp [cosineSimilarity, h]

theorem cosineSimilarity_cases (a b : Option (List F64)) :
    cosineSimilarity a b = .error vectorError ∨ ∃ x, cosineSimilarity a b = .ok x := by
  cases a with
  | none => simp [cosineSimilarity]
  | some u =>
    cases b with
    | none => simp [cosineSimilarity]
    | some v =>
      by_cases h : u.length = v.length <;> simp [cosineSimilarity, h]

theorem cosineSimilarity_ok_of_length (u v : List F64) (h : u.length = v.length) :
    ∃ x, cosineSimilarity (some u) (some v) = .ok x := by
  simp [cosineSimilarity, h]

theorem dot_comm (a b : List F64) (z : F64) :
    (a.zip b).foldl (fun sum p => F64.add sum (F64.mul p.1 p.2)) z =
      (b.zip a).foldl (fun sum p => F64.add sum (F64.mul p.1 p.2)) z := by
  induction a generalizing b z with
  | nil => cases b <;> rfl
  | cons x xs ih =>
    cases b with
    | nil => rfl
    | cons y ys =>
      simp only [List.zip_cons_cons, List.foldl_cons]
      rw [F64.mul_comm x y]
      exact ih ys _

theorem cosineSimilarity_comm (a b : Option (List F64)) :
    cosineSimilarity a b = cosineSimilarity b a := by
  cases a with
  | none => cases b <;> rfl
  | some u =>
    cases b with
    | none => rfl
    | some v =>
      by_cases h : u.length = v.length
      · simp only [cosineSimilarity, h, ne_eq, not_true_eq_false, if_false]
        rw [dot_comm u v, F64.mul_comm]
      · have h2 : ¬ v.length = u.length := fun h3 => h h3.symm
        simp [cosineSimilarity, h, h2]

/-! ### The scan -/

theorem similarityOf_array (q : List F64) (c : Candidate) (v : List F64) (s : F64)
    (hc : c.embedding = .array v) (hs : cosineSimilarity (some v) (some q) = .ok s) :
    similarityOf q c = some s := by
  simp [similarityOf, hc, hs]

theorem similarityOf_not_array (q : List F64) (c : Candidate)
    (hc : c.embedding.isArray = false) : similarityOf q c = none := by
  unfold similarityOf
  cases h : c.embedding with
  | array v => rw [h] at hc; simp [EmbeddingValue.isArray] at hc
  | missing => rfl
  | notArray => rfl

theorem loop_not_array (q : List F64) (c : Candidate) (rest : List Candidate) (m : F64)
    (sp : Option SimilarPhrase) (hc : c.embedding.isArray = false) :
    findSimilarPhraseLoop q (c :: rest) m sp = findSimilarPhraseLoop q rest m sp := by
  cases h : c.embedding with
  | array v => rw [h] at hc; simp [EmbeddingValue.isArray] at hc
  | missing => simp [findSimilarPhraseLoop, h]
  | notArray => simp [findSimilarPhraseLoop, h]

theorem loop_array (q : List F64) (c : Candidate) (rest : List Candidate) (m : F64)
    (sp : Option SimilarPhrase) (v : List F64) (s : F64) (hc : c.embedding = .array v)
    (hs : cosineSimilarity (some v) (some q) = .ok s) :
    findSimilarPhraseLoop q (c :: rest) m sp =
      if F64.gt s m then
        findSimilarPhraseLoop q rest s (some ⟨c.phrase, s, c.downloadURL⟩)
      else findSimilarPhraseLoop q rest m sp := by
  simp [findSimilarPhraseLoop, hc, hs]

theorem loop_array_error (q : List F64) (c : Candidate) (rest : List Candidate) (m : F64)
    (sp : Option SimilarPhrase) (v : List F64) (hc : c.embedding = .array v)
    (hs : cosineSimilarity (some v) (some q) = .error vectorError) :
    findSimilarPhraseLoop q (c :: rest) m sp = .error vectorError := by
  simp [findSimilarPhraseLoop, hc, hs]

end SfxCache

namespace SfxCache
open F64

/-- The scan fails exactly when some array embedding has another length than the query. -/
theorem loop_error_iff (q : List F64) (cands : List Candidate) (m : F64)
    (sp : Option SimilarPhrase) :
    findSimilarPhraseLoop q cands m sp = .error vectorError ↔
      ∃ c ∈ cands, ∃ v, c.embedding = .array v ∧ v.length ≠ q.length := by
  induction cands generalizing m sp with
  | nil => simp [findSimilarPhraseLoop]
  | cons c rest ih =>
    cases hc : c.embedding with
    | array v =>
      by_cases hl : v.length = q.length
      · obtain ⟨s, hs⟩ := cosineSimilarity_ok_of_length v q hl
        rw [loop_array q c rest m sp v s hc hs]
        have key : (∃ d ∈ c :: rest, ∃ w, d.embedding = .array w ∧ w.length ≠ q.length) ↔
            ∃ d ∈ rest, ∃ w, d.embedding = .array w ∧ w.length ≠ q.length := by
          constructor
          · rintro ⟨d, hd, w, hw, hne⟩
            rcases List.mem_cons.mp hd with rfl | hd
            · rw [hc] at hw
              cases hw
              exact absurd hl hne
            · exact ⟨d, hd, w, hw, hne⟩
          · rintro ⟨d, hd, w, hw, hne⟩
            exact ⟨d, List.mem_cons_of_mem _ hd, w, hw, hne⟩
        rw [key]
        split
        · exact ih _ _
        · exact ih _ _
      · have hs : cosineSimilarity (some v) (some q) = .error vectorError :=
          (cosineSimilarity_error_iff _ _).mpr (Or.inr (Or.inr ⟨v, q, rfl, rfl, hl⟩))
        rw [loop_array_error q c rest m sp v hc hs]
        simp only [true_iff]
        exact ⟨c, List.mem_cons_self _ _, v, hc, hl⟩
    | missing =>
      rw [loop_not_array q c rest m sp (by rw [hc]; rfl), ih]
      constructor
      · rintro ⟨d, hd, w, hw, hne⟩
        exact ⟨d, List.mem_cons_of_mem _ hd, w, hw, hne⟩
      · rintro ⟨d, hd, w, hw, hne⟩
        rcases List.mem_cons.mp hd with rfl | hd
        · rw [hc] at hw
          cases hw
        · exact ⟨d, hd, w, hw, hne⟩
    | notArray =>
      rw [loop_not_array q c rest m sp (by rw [hc]; rfl), ih]
      constructor
      · rintro ⟨d, hd, w, hw, hne⟩
        exact ⟨d, List.mem_cons_of_mem _ hd, w, hw, hne⟩
      · rintro ⟨d, hd, w, hw, hne⟩
        rcases List.mem_cons.mp hd with rfl | hd
        · rw [hc] at hw
          cases hw
        · exact ⟨d, hd, w, hw, hne⟩

/-- The scan either fails with the error of `cosineSimilarity` or returns. -/
theorem loop_cases (q : List F64) (cands : List Candidate) (m : F64)
    (sp : Option SimilarPhrase) :
    findSimilarPhraseLoop q cands m sp = .error vectorError ∨
      ∃ r, findSimilarPhraseLoop q cands m sp = .ok r := by
  induction cands generalizing m sp with
  | nil => exact Or.inr ⟨_, rfl⟩
  | cons c rest ih =>
    cases hc : c.embedding with
    | array v =>
      rcases cosineSimilarity_cases (some v) (some q) with hs | ⟨s, hs⟩
      · exact Or.inl (loop_array_error q c rest m sp v hc hs)
      · rw [loop_array q c rest m sp v s hc hs]
        split
        · exact ih _ _
        · exact ih _ _
    | missing =>
      rw [loop_not_array q c rest m sp (by rw [hc]; rfl)]
      exact ih _ _
    | notArray =>
      rw [loop_not_array q c rest m sp (by rw [hc]; rfl)]
      exact ih _ _

/-- Candidates without an array embedding do not influence the scan. -/
theorem loop_filter (q : List F64) (cands : List Candidate) (m : F64)
    (sp : Option SimilarPhrase) :
    findSimilarPhraseLoop q (cands.filter (fun c => c.embedding.isArray)) m sp =
      findSimilarPhraseLoop q cands m sp := by
  induction cands generalizing m sp with
  | nil => rfl
  | cons c rest ih =>
    cases hc : c.embedding with
    | array v =>
      have hf : (c :: rest).filter (fun c => c.embedding.isArray) =
          c :: rest.filter (fun c => c.embedding.isArray) := by
        simp [List.filter, hc, EmbeddingValue.isArray]
      rw [hf]
      rcases cosineSimilarity_cases (some v) (some q) with hs | ⟨s, hs⟩
      · rw [loop_array_error q c _ m sp v hc hs, loop_array_error q c _ m sp v hc hs]
      · rw [loop_array q c _ m sp v s hc hs, loop_array q c _ m sp v s hc hs, ih, ih]
    | missing =>
      have hf : (c :: rest).filter (fun c => c.embedding.isArray) =
          rest.filter (fun c => c.embedding.isArray) := by
        simp [List.filter, hc, EmbeddingValue.isArray]
      rw [hf, loop_not_array q c rest m sp (by rw [hc]; rfl), ih]
    | notArray =>
      have hf : (c :: rest).filter (fun c => c.embedding.isArray) =
          rest.filter (fun c => c.embedding.isArray) := by
        simp [List.filter, hc, EmbeddingValue.isArray]
      rw [hf, loop_not_array q c rest m sp (by rw [hc]; rfl), ih]

/-- What a returning scan yields: either nothing exceeded the starting maximum and the
accumulators come back unchanged, or the result is the first candidate attaining the
greatest similarity, which exceeds the starting maximum. -/
theorem loop_spec (q : List F64) (cands : List Candidate) (m : F64)
    (sp : Option SimilarPhrase) (r : MatchResult)
    (h : findSimilarPhraseLoop q cands m sp = .ok r) :
    (r = ⟨m, sp⟩ ∧ ∀ c ∈ cands, ∀ s, similarityOf q c = some s → F64.gt s m = false) ∨
    (∃ pre c post s, cands = pre ++ c :: post ∧ similarityOf q c = some s ∧
      r = ⟨s, some ⟨c.phrase, s, c.downloadURL⟩⟩ ∧ F64.gt s m = true ∧
      (∀ d ∈ cands, ∀ t, similarityOf q d = some t → F64.gt t s = false) ∧
      (∀ d ∈ pre, ∀ t, similarityOf q d = some t → t = nan ∨ F64.gt s t = true)) := by
  induction cands generalizing m sp with
  | nil =>
    left
    simp only [findSimilarPhraseLoop, Except.ok.injEq] at h
    exact ⟨h.symm, by simp⟩
  | cons c rest ih =>
    by_cases hc : c.embedding.isArray = false
    · rw [loop_not_array q c rest m sp hc] at h
      have hnone := similarityOf_not_array q c hc
      rcases ih m sp h with ⟨hr, hall⟩ | ⟨pre, c1, post, s, hsplit, hs, hr, hgt, hall, hpre⟩
      · left
        refine ⟨hr, ?_⟩
        intro d hd t ht
        rcases List.mem_cons.mp hd with rfl | hd
        · rw [hnone] at ht
          cases ht
        · exact hall d hd t ht
      · right
        refine ⟨c :: pre, c1, post, s, by rw [hsplit]; rfl, hs, hr, hgt, ?_, ?_⟩
        · intro d hd t ht
          rcases List.mem_cons.mp hd with rfl | hd
          · rw [hnone] at ht
            cases ht
          · exact hall d hd t ht
        · intro d hd t ht
          rcases List.mem_cons.mp hd with rfl | hd
          · rw [hnone] at ht
            cases ht
          · exact hpre d hd t ht
    · obtain ⟨v, hv⟩ : ∃ v, c.embedding = .array v := by
        cases hce : c.embedding with
        | array v => exact ⟨v, rfl⟩
        | missing => rw [hce] at hc; exact absurd rfl hc
        | notArray => rw [hce] at hc; exact absurd rfl hc
      rcases cosineSimilarity_cases (some v) (some q) with hs0 | ⟨s0, hs0⟩
      · rw [loop_array_error q c rest m sp v hv hs0] at h
        cases h
      · rw [loop_array q c rest m sp v s0 hv hs0] at h
        have hsim := similarityOf_array q c v s0 hv hs0
        by_cases hg : F64.gt s0 m = true
        · rw [if_pos hg] at h
          rcases ih _ _ h with ⟨hr, hall⟩ | ⟨pre, c1, post, s, hsplit, hs, hr, hgt, hall, hpre⟩
          · right
            refine ⟨[], c, rest, s0, rfl, hsim, hr, hg, ?_, by simp⟩
            intro d hd t ht
            rcases List.mem_cons.mp hd with rfl | hd
            · rw [hsim] at ht
              cases ht
              exact F64.gt_irrefl _
            · exact hall d hd t ht
          · right
            refine ⟨c :: pre, c1, post, s, by rw [hsplit]; rfl, hs, hr,
              F64.gt_trans _ _ _ hgt hg, ?_, ?_⟩
            · intro d hd t ht
              rcases List.mem_cons.mp hd with rfl | hd
              · rw [hsim] at ht
                cases ht
                exact F64.gt_asymm _ _ hgt
              · exact hall d hd t ht
            · intro d hd t ht
              rcases List.mem_cons.mp hd with rfl | hd
              · rw [hsim] at ht
                cases ht
                exact Or.inr hgt
              · exact hpre d hd t ht
        · have hg2 : F64.gt s0 m = false := by
            cases hgm : F64.gt s0 m
            · rfl
            · exact absurd hgm hg
          rw [if_neg hg] at h
          rcases ih _ _ h with ⟨hr, hall⟩ | ⟨pre, c1, post, s, hsplit, hs, hr, hgt, hall, hpre⟩
          · left
            refine ⟨hr, ?_⟩
            intro d hd t ht
            rcases List.mem_cons.mp hd with rfl | hd
            · rw [hsim] at ht
              cases ht
              exact hg2
            · exact hall d hd t ht
          · right
            have hor := F64.gt_of_gt_of_not_gt s0 m s hgt hg2
            refine ⟨c :: pre, c1, post, s, by rw [hsplit]; rfl, hs, hr, hgt, ?_, ?_⟩
            · intro d hd t ht
              rcases List.mem_cons.mp hd with rfl | hd
              · rw [hsim] at ht
                cases ht
                rcases hor with hn | hst
                · rw [hn]
                  exact F64.nan_gt _
                · exact F64.gt_asymm _ _ hst
              · exact hall d hd t ht
            · intro d hd t ht
              rcases List.mem_cons.mp hd with rfl | hd
              · rw [hsim] at ht
                cases ht
                exact hor
              · exact hpre d hd t ht

/-- A returned `similarPhrase` is a candidate of the list with the similarity computed for
it, which is `maxSimilarity`, and no candidate has a greater one. -/
theorem findSimilarPhrase_best (cands : List Candidate) (q : List F64) (r : MatchResult)
    (sp : SimilarPhrase) (h : findSimilarPhrase cands q = .ok r)
    (hsp : r.similarPhrase = some sp) :
    r.maxSimilarity = sp.similarity ∧
      (∃ c ∈ cands, similarityOf q c = some sp.similarity ∧ sp.phrase = c.phrase ∧
        sp.downloadURL = c.downloadURL) ∧
      ∀ d ∈ cands, ∀ t, similarityOf q d = some t → F64.gt t sp.similarity = false := by
  rcases loop_spec q cands F64.zero none r h with
    ⟨hr, _⟩ | ⟨pre, c, post, s, hsplit, hs, hr, _, hall, _⟩
  · rw [hr] at hsp
    cases hsp
  · rw [hr] at hsp
    cases hsp
    rw [hr]
    refine ⟨rfl, ⟨c, ?_, hs, rfl, rfl⟩, hall⟩
    rw [hsplit]
    simp

/-! ### The reuse decision -/

theorem similarPhrase_of_decision (r : MatchResult) (h : reuseDecision r = true) :
    ∃ sp, r.similarPhrase = some sp := by
  unfold reuseDecision at h
  rw [Bool.and_eq_true] at h
  cases hsp : r.similarPhrase with
  | none => rw [hsp] at h; exact absurd h.2 (by simp)
  | some sp => exact ⟨sp, rfl⟩

/-- A candidate above the threshold forces a reuse. -/
theorem reuseDecision_of_candidate (cands : List Candidate) (q : List F64) (r : MatchResult)
    (c : Candidate) (s : F64) (h : findSimilarPhrase cands q = .ok r) (hc : c ∈ cands)
    (hs : similarityOf q c = some s) (hgt : F64.gt s reuseThreshold = true) :
    reuseDecision r = true := by
  have h0 : F64.gt s F64.zero = true :=
    F64.gt_trans s reuseThreshold F64.zero hgt (by decide)
  rcases loop_spec q cands F64.zero none r h with
    ⟨_, hall⟩ | ⟨pre, c1, post, s1, _, _, hr, hgt1, hall, _⟩
  · have := hall c hc s hs
    rw [h0] at this
    cases this
  · have hm : F64.gt s1 reuseThreshold = true :=
      F64.gt_of_not_gt_of_gt s s1 reuseThreshold hgt (hall c hc s hs)
        (F64.ne_nan_of_gt _ _ hgt1)
    rw [hr]
    simp [reuseDecision, hm]

end SfxCache

namespace SfxCache
open F64


/-! ### The handler -/

theorem processPhrase_reuse_eq (env : Env) (phrase : Entry) (snap : List Candidate)
    (w : World) (v : List F64) (r : MatchResult) (sp : SimilarPhrase)
    (hemb : env.createEmbedding phrase = .ok (.array v))
    (hr : findSimilarPhrase snap v = .ok r) (hd : reuseDecision r = true)
    (hsp : r.similarPhrase = some sp) :
    processPhrase env phrase snap w =
      (.ok ⟨phrase, sp.downloadURL⟩, snap,
        { w with calls := w.calls ++ [Call.embed phrase] }) := by
  simp [processPhrase, hemb, hr, hd, hsp]

theorem processPhrase_generate_eq (env : Env) (phrase : Entry) (snap : List Candidate)
    (w : World) (v : List F64) (r : MatchResult) (audio : List Nat)
    (hemb : env.createEmbedding phrase = .ok (.array v))
    (hr : findSimilarPhrase snap v = .ok r) (hd : reuseDecision r = false)
    (hg : env.generate phrase = .ok audio) :
    processPhrase env phrase snap w =
      (.ok ⟨phrase, "https://storage.googleapis.com/" ++ env.bucketName ++ "/" ++
          ("sound_effects/" ++ phrase.text ++ "_" ++ toString env.dateNow ++ ".mp3")⟩,
        snap ++ [⟨phrase.text, .array v, "https://storage.googleapis.com/" ++
          env.bucketName ++ "/" ++
          ("sound_effects/" ++ phrase.text ++ "_" ++ toString env.dateNow ++ ".mp3")⟩],
        { records := setRecord phrase.text ⟨phrase, env.dateNow,
            "https://storage.googleapis.com/" ++ env.bucketName ++ "/" ++
              ("sound_effects/" ++ phrase.text ++ "_" ++ toString env.dateNow ++ ".mp3"),
            .array v⟩ w.records
          files := w.files ++
            [("sound_effects/" ++ phrase.text ++ "_" ++ toString env.dateNow ++ ".mp3", audio)]
          calls := (w.calls ++ [Call.embed phrase]) ++ [Call.generate phrase] ++
            [Call.saveFile
                ("sound_effects/" ++ phrase.text ++ "_" ++ toString env.dateNow ++ ".mp3"),
              Call.setRecord phrase.text] }) := by
  simp [processPhrase, hemb, hr, hd, hg]

/-- A fulfilled callback went through the reuse branch or through a successful
generation. -/
theorem processPhrase_ok_cases (env : Env) (phrase : Entry) (snap : List Candidate)
    (w : World) (item : Item) (h : (processPhrase env phrase snap w).1 = .ok item) :
    ∃ v r, env.createEmbedding phrase = .ok (.array v) ∧ findSimilarPhrase snap v = .ok r ∧
      (reuseDecision r = true ∨
        (reuseDecision r = false ∧ ∃ audio, env.generate phrase = .ok audio)) := by
  unfold processPhrase at h
  cases hemb : env.createEmbedding phrase with
  | error err => simp [hemb] at h
  | ok ev =>
    cases ev with
    | missing => simp [hemb] at h
    | notArray => simp [hemb] at h
    | array v =>
      cases hr : findSimilarPhrase snap v with
      | error err => simp [hemb, hr] at h
      | ok r =>
        refine ⟨v, r, rfl, hr, ?_⟩
        cases hd : reuseDecision r with
        | true => exact Or.inl rfl
        | false =>
          right
          refine ⟨rfl, ?_⟩
          cases hg : env.generate phrase with
          | error err => simp [hemb, hr, hd, hg] at h
          | ok audio => exact ⟨audio, rfl⟩

/-- Without a reuse decision the callback goes on to the generation service. -/
theorem processPhrase_generate_calls (env : Env) (phrase : Entry) (snap : List Candidate)
    (w : World) (v : List F64) (r : MatchResult)
    (hemb : env.createEmbedding phrase = .ok (.array v))
    (hr : findSimilarPhrase snap v = .ok r) (hd : reuseDecision r = false) :
    ∃ more, (processPhrase env phrase snap w).2.2.calls =
      w.calls ++ Call.embed phrase :: Call.generate phrase :: more := by
  cases hg : env.generate phrase with
  | error err => exact ⟨[], by simp [processPhrase, hemb, hr, hd, hg]⟩
  | ok audio => exact ⟨_, by simp [processPhrase, hemb, hr, hd, hg]; rfl⟩

theorem processPhrase_calls (env : Env) (phrase : Entry) (snap : List Candidate) (w : World) :
    ∃ more, (processPhrase env phrase snap w).2.2.calls =
      w.calls ++ Call.embed phrase :: more := by
  cases hemb : env.createEmbedding phrase with
  | error err => exact ⟨[], by simp [processPhrase, hemb]⟩
  | ok ev =>
    cases ev with
    | missing => exact ⟨[], by simp [processPhrase, hemb]⟩
    | notArray => exact ⟨[], by simp [processPhrase, hemb]⟩
    | array v =>
      cases hr : findSimilarPhrase snap v with
      | error err => exact ⟨[], by simp [processPhrase, hemb, hr]⟩
      | ok r =>
        cases hd : reuseDecision r with
        | true =>
          obtain ⟨sp, hsp⟩ := similarPhrase_of_decision r hd
          exact ⟨[], by rw [processPhrase_reuse_eq env phrase snap w v r sp hemb hr hd hsp]⟩
        | false =>
          obtain ⟨more, hm⟩ := processPhrase_generate_calls env phrase snap w v r hemb hr hd
          exact ⟨_, hm⟩

theorem processAll_calls (env : Env) (ps : List Entry) (snap : List Candidate) (w : World) :
    ∃ more, (processAll env ps snap w).2.2.calls = w.calls ++ more := by
  induction ps generalizing snap w with
  | nil => exact ⟨[], by simp [processAll]⟩
  | cons p rest ih =>
    obtain ⟨m1, h1⟩ := processPhrase_calls env p snap w
    obtain ⟨m2, h2⟩ := ih (processPhrase env p snap w).2.1 (processPhrase env p snap w).2.2
    refine ⟨Call.embed p :: m1 ++ m2, ?_⟩
    simp only [processAll]
    rw [h2, h1]
    simp

end SfxCache

namespace SfxCache
open F64


/-! ### Claims about the similarity matcher and the reuse decision -/

/-- C1: whenever `findSimilarPhrase` returns, the handler's reuse decision is true exactly
when the returned `similarPhrase` is non-null and its similarity is strictly greater than
0.9; that `similarPhrase` is a candidate of the list, carries the similarity computed for it,
which is also `maxSimilarity`, and no candidate has a greater one. Equivalently the
decision is true exactly when some candidate's similarity is strictly greater than 0.9. A
best similarity of exactly 0.9 is not reuse, and on the empty list the function returns no
match, so no reuse. The decision is the one the handler acts on: for a phrase whose
embedding is the query, the callback returns the `downloadURL` of `similarPhrase` after the
embedding request alone when the decision is true, and calls the generation service when it
is false. -/
theorem reuseDecision_iff_best_above_threshold (cands : List Candidate) (q : List F64)
    (r : MatchResult) (h : findSimilarPhrase cands q = .ok r) :
    (reuseDecision r = true ↔
      ∃ sp, r.similarPhrase = some sp ∧ F64.gt sp.similarity reuseThreshold = true) ∧
    (∀ sp, r.similarPhrase = some sp →
      r.maxSimilarity = sp.similarity ∧
      (∃ c ∈ cands, similarityOf q c = some sp.similarity ∧ sp.phrase = c.phrase ∧
        sp.downloadURL = c.downloadURL) ∧
      ∀ d ∈ cands, ∀ t, similarityOf q d = some t → F64.gt t sp.similarity = false) ∧
    (reuseDecision r = true ↔
      ∃ c ∈ cands, ∃ s, similarityOf q c = some s ∧ F64.gt s reuseThreshold = true) ∧
    (∀ sp, r.similarPhrase = some sp → sp.similarity = reuseThreshold →
      reuseDecision r = false) ∧
    (findSimilarPhrase [] q = .ok ⟨F64.zero, none⟩ ∧
      reuseDecision ⟨F64.zero, none⟩ = false) ∧
    (∀ (env : Env) (phrase : Entry) (w : World),
      env.createEmbedding phrase = .ok (.array q) →
      (reuseDecision r = true →
        ∃ sp, r.similarPhrase = some sp ∧
          processPhrase env phrase cands w =
            (.ok ⟨phrase, sp.downloadURL⟩, cands,
              { w with calls := w.calls ++ [Call.embed phrase] })) ∧
      (reuseDecision r = false →
        ∃ more, (processPhrase env phrase cands w).2.2.calls =
          w.calls ++ Call.embed phrase :: Call.generate phrase :: more)) := by
  have hbest := fun sp hsp => findSimilarPhrase_best cands q r sp h hsp
  have hiff : reuseDecision r = true ↔
      ∃ sp, r.similarPhrase = some sp ∧ F64.gt sp.similarity reuseThreshold = true := by
    constructor
    · intro hd
      obtain ⟨sp, hsp⟩ := similarPhrase_of_decision r hd
      refine ⟨sp, hsp, ?_⟩
      rw [← (hbest sp hsp).1]
      unfold reuseDecision at hd
      rw [Bool.and_eq_true] at hd
      exact hd.1
    · rintro ⟨sp, hsp, hgt⟩
      unfold reuseDecision
      rw [(hbest sp hsp).1, hgt, hsp]
      rfl
  refine ⟨hiff, hbest, ?_, ?_, ⟨rfl, rfl⟩, ?_⟩
  · constructor
    · intro hd
      obtain ⟨sp, hsp, hgt⟩ := hiff.mp hd
      obtain ⟨_, ⟨c, hc, hsim, _, _⟩, _⟩ := hbest sp hsp
      exact ⟨c, hc, sp.similarity, hsim, hgt⟩
    · rintro ⟨c, hc, s, hsim, hgt⟩
      exact reuseDecision_of_candidate cands q r c s h hc hsim hgt
  · intro sp hsp heq
    unfold reuseDecision
    rw [(hbest sp hsp).1, heq, F64.gt_irrefl]
    rfl
  · intro env phrase w hemb
    constructor
    · intro hd
      obtain ⟨sp, hsp⟩ := similarPhrase_of_decision r hd
      exact ⟨sp, hsp, processPhrase_reuse_eq env phrase cands w q r sp hemb h hd hsp⟩
    · intro hd
      exact processPhrase_generate_calls env phrase cands w q r hemb h hd

/-- The stored phrase "a thunderstorm" is at similarity 0.95 to the query: the decision is
reuse and the handler returns "url1". -/
theorem reuseDecision_iff_best_above_threshold_witness :
    findSimilarPhrase thunderSnapshot
        [fin false 19 0, fin false 5 0, fin false 3 0, fin false 1 1, fin false 1 0] =
        .ok ⟨fin false 4278419646001971 (-52),
          some ⟨"a thunderstorm", fin false 4278419646001971 (-52), "url1"⟩⟩ ∧
      reuseDecision ⟨fin false 4278419646001971 (-52),
        some ⟨"a thunderstorm", fin false 4278419646001971 (-52), "url1"⟩⟩ = true ∧
      processPhrase sampleEnv (.str "thunderstorm rumbling") thunderSnapshot emptyWorld =
        (.ok ⟨.str "thunderstorm rumbling", "url1"⟩, thunderSnapshot,
          ⟨[], [], [Call.embed (.str "thunderstorm rumbling")]⟩) := by
  have hr : findSimilarPhrase thunderSnapshot
      [fin false 19 0, fin false 5 0, fin false 3 0, fin false 1 1, fin false 1 0] =
      .ok ⟨fin false 4278419646001971 (-52),
        some ⟨"a thunderstorm", fin false 4278419646001971 (-52), "url1"⟩⟩ := by decide
  have hall := reuseDecision_iff_best_above_threshold thunderSnapshot _ _ hr
  have hd := hall.1.mpr ⟨_, rfl, by decide⟩
  obtain ⟨sp, hsp, heq⟩ :=
    (hall.2.2.2.2.2 sampleEnv (.str "thunderstorm rumbling") emptyWorld rfl).1 hd
  cases hsp
  exact ⟨hr, hd, heq⟩

/-- C2, as stated, fails: the only candidate has similarity -1 to the query, the greatest of
the list, yet `similarPhrase` is null and `maxSimilarity` is 0. -/
theorem findSimilarPhrase_no_match_below_zero :
    similarityOf [fin true 1 0] ⟨"rain", .array [fin false 1 0], "url1"⟩ = some (fin true 1 0) ∧
      findSimilarPhrase [⟨"rain", .array [fin false 1 0], "url1"⟩] [fin true 1 0] =
        .ok ⟨F64.zero, none⟩ := by
  decide

/-- C2, amended: when every embedding is an array of the query's length, `findSimilarPhrase`
returns; if no candidate's similarity is strictly greater than 0 the result is
`maxSimilarity = 0` with a null `similarPhrase`; otherwise `similarPhrase` is the first
candidate in list order attaining the greatest similarity (no candidate is greater, every
earlier one is smaller or NaN), that similarity exceeds 0 and `maxSimilarity` equals it. -/
theorem findSimilarPhrase_first_greatest_above_zero (cands : List Candidate) (q : List F64)
    (hlen : ∀ c ∈ cands, ∃ v, c.embedding = .array v ∧ v.length = q.length) :
    ∃ r, findSimilarPhrase cands q = .ok r ∧
      ((r = ⟨F64.zero, none⟩ ∧
          ∀ c ∈ cands, ∀ s, similarityOf q c = some s → F64.gt s F64.zero = false) ∨
        (∃ pre c post s, cands = pre ++ c :: post ∧ similarityOf q c = some s ∧
          r = ⟨s, some ⟨c.phrase, s, c.downloadURL⟩⟩ ∧ F64.gt s F64.zero = true ∧
          (∀ d ∈ cands, ∀ t, similarityOf q d = some t → F64.gt t s = false) ∧
          (∀ d ∈ pre, ∀ t, similarityOf q d = some t → t = nan ∨ F64.gt s t = true))) := by
  rcases loop_cases q cands F64.zero none with herr | ⟨r, hr⟩
  · obtain ⟨c, hc, v, hv, hne⟩ := (loop_error_iff q cands F64.zero none).mp herr
    obtain ⟨w, hw, hwl⟩ := hlen c hc
    rw [hv] at hw
    cases hw
    exact absurd hwl hne
  · exact ⟨r, hr, loop_spec q cands F64.zero none r hr⟩

/-- Two candidates tie at similarity 1: the first one is returned. -/
theorem findSimilarPhrase_first_greatest_above_zero_witness :
    ∃ r, findSimilarPhrase [⟨"a", .array [fin false 1 0], "url1"⟩,
        ⟨"b", .array [fin false 1 0], "url2"⟩] [fin false 1 0] = .ok r ∧
      ((r = ⟨F64.zero, none⟩ ∧
          ∀ c ∈ [(⟨"a", .array [fin false 1 0], "url1"⟩ : Candidate),
              ⟨"b", .array [fin false 1 0], "url2"⟩],
            ∀ s, similarityOf [fin false 1 0] c = some s → F64.gt s F64.zero = false) ∨
        (∃ pre c post s, [(⟨"a", .array [fin false 1 0], "url1"⟩ : Candidate),
              ⟨"b", .array [fin false 1 0], "url2"⟩] = pre ++ c :: post ∧
          similarityOf [fin false 1 0] c = some s ∧
          r = ⟨s, some ⟨c.phrase, s, c.downloadURL⟩⟩ ∧ F64.gt s F64.zero = true ∧
          (∀ d ∈ [(⟨"a", .array [fin false 1 0], "url1"⟩ : Candidate),
              ⟨"b", .array [fin false 1 0], "url2"⟩],
            ∀ t, similarityOf [fin false 1 0] d = some t → F64.gt t s = false) ∧
          (∀ d ∈ pre, ∀ t, similarityOf [fin false 1 0] d = some t →
            t = nan ∨ F64.gt s t = true))) :=
  findSimilarPhrase_first_greatest_above_zero _ _ (by
    intro c hc
    simp only [List.mem_cons, List.mem_singleton, List.not_mem_nil, or_false] at hc
    rcases hc with rfl | rfl <;> exact ⟨_, rfl, rfl⟩)

/-- C3, as stated, fails: with a length-3 and a length-5 embedding and a length-3 query the
function raises the error of `cosineSimilarity`, while on the list without the length-5
candidate it returns the first candidate. -/
theorem findSimilarPhrase_throws_on_length_mismatch :
    findSimilarPhrase
        [⟨"a", .array [fin false 1 0, F64.zero, F64.zero], "url1"⟩,
          ⟨"b", .array [fin false 1 0, F64.zero, F64.zero, F64.zero, F64.zero], "url2"⟩]
        [fin false 1 0, F64.zero, F64.zero] = .error vectorError ∧
      findSimilarPhrase [⟨"a", .array [fin false 1 0, F64.zero, F64.zero], "url1"⟩]
        [fin false 1 0, F64.zero, F64.zero] =
        .ok ⟨fin false 1 0, some ⟨"a", fin false 1 0, "url1"⟩⟩ := by
  decide

/-- C3, amended: `findSimilarPhrase` skips each candidate whose embedding is absent or not
an array, so its outcome equals its outcome on the list with those candidates removed; it
raises the error of `cosineSimilarity` exactly when some candidate's array embedding has a
length different from the query's, and returns otherwise. -/
theorem findSimilarPhrase_skips_non_arrays (cands : List Candidate) (q : List F64) :
    findSimilarPhrase cands q =
        findSimilarPhrase (cands.filter (fun c => c.embedding.isArray)) q ∧
      (findSimilarPhrase cands q = .error vectorError ↔
        ∃ c ∈ cands, ∃ v, c.embedding = .array v ∧ v.length ≠ q.length) ∧
      (findSimilarPhrase cands q = .error vectorError ∨
        ∃ r, findSimilarPhrase cands q = .ok r) :=
  ⟨(loop_filter q cands F64.zero none).symm, loop_error_iff q cands F64.zero none,
    loop_cases q cands F64.zero none⟩

/-- C4 fails on the code: for the zero vector `[0]` against `[1]`, both of length 1,
`cosineSimilarity` divides 0 by 0 and returns NaN, which is not in [-1, 1]. -/
theorem cosineSimilarity_zero_norm_nan :
    cosineSimilarity (some [F64.zero]) (some [fin false 1 0]) = .ok nan := by
  decide

/-- C5 fails on the code: for the zero vector `[0]`, of length 1,
`cosineSimilarity(a, a)` is NaN, not 1. -/
theorem cosineSimilarity_self_zero_nan :
    cosineSimilarity (some [F64.zero]) (some [F64.zero]) = .ok nan ∧
      nan ≠ fin false 1 0 := by
  decide

/-- C6: `cosineSimilarity(a, b)` and `cosineSimilarity(b, a)` have the same outcome: both
throw the same error or both return the same Number. -/
theorem cosineSimilarity_symmetric (a b : Option (List F64)) :
    cosineSimilarity a b = cosineSimilarity b a :=
  cosineSimilarity_comm a b

/-- C7, as stated, fails: two empty arrays violate the claimed precondition, yet
`cosineSimilarity` throws nothing and returns NaN. -/
theorem cosineSimilarity_empty_returns_nan :
    cosineSimilarity (some []) (some []) = .ok nan := by
  decide

/-- C7, amended: `cosineSimilarity` throws exactly when an argument is absent
(`undefined`/`null`) or the two lengths differ, which includes one empty and one non-empty
array; it returns a Number exactly when both are arrays of equal length, two empty arrays
included. -/
theorem cosineSimilarity_throws_iff (a b : Option (List F64)) :
    (cosineSimilarity a b = .error vectorError ↔
      a = none ∨ b = none ∨ ∃ u v, a = some u ∧ b = some v ∧ u.length ≠ v.length) ∧
    ((∃ x, cosineSimilarity a b = .ok x) ↔
      ∃ u v, a = some u ∧ b = some v ∧ u.length = v.length) ∧
    (cosineSimilarity a b = .error vectorError ∨ ∃ x, cosineSimilarity a b = .ok x) := by
  refine ⟨cosineSimilarity_error_iff a b, ?_, cosineSimilarity_cases a b⟩
  constructor
  · rintro ⟨x, hx⟩
    cases a with
    | none => simp [cosineSimilarity] at hx
    | some u =>
      cases b with
      | none => simp [cosineSimilarity] at hx
      | some v =>
        by_cases hl : u.length = v.length
        · exact ⟨u, v, rfl, rfl, hl⟩
        · simp [cosineSimilarity, hl] at hx
  · rintro ⟨u, v, rfl, rfl, hl⟩
    exact cosineSimilarity_ok_of_length u v hl

end SfxCache

namespace SfxCache
open F64

/-! ### Claims about the handler -/

/-- C8: when the embedding of the phrase is an array and the match decision on the current
snapshot is reuse, the callback returns the phrase paired with the `downloadURL` of the best
match, a record of the snapshot to which no other is more similar; the only external call
is the embedding request: no generation call, no file saved, no record written, and the
snapshot is returned unchanged. -/
theorem processPhrase_reuse_is_effect_free (env : Env) (phrase : Entry)
    (snap : List Candidate) (w : World) (v : List F64) (r : MatchResult)
    (hemb : env.createEmbedding phrase = .ok (.array v))
    (hr : findSimilarPhrase snap v = .ok r) (hd : reuseDecision r = true) :
    ∃ sp, r.similarPhrase = some sp ∧
      (∃ c ∈ snap, c.downloadURL = sp.downloadURL ∧ similarityOf v c = some sp.similarity ∧
        ∀ d ∈ snap, ∀ t, similarityOf v d = some t → F64.gt t sp.similarity = false) ∧
      processPhrase env phrase snap w =
        (.ok ⟨phrase, sp.downloadURL⟩, snap,
          { w with calls := w.calls ++ [Call.embed phrase] }) ∧
      (processPhrase env phrase snap w).2.1 = snap ∧
      (processPhrase env phrase snap w).2.2.records = w.records ∧
      (processPhrase env phrase snap w).2.2.files = w.files ∧
      generationCalls (processPhrase env phrase snap w).2.2.calls =
        generationCalls w.calls := by
  obtain ⟨sp, hsp⟩ := similarPhrase_of_decision r hd
  obtain ⟨_, ⟨c, hc, hsim, _, hurl⟩, hall⟩ := findSimilarPhrase_best snap v r sp hr hsp
  have heq := processPhrase_reuse_eq env phrase snap w v r sp hemb hr hd hsp
  refine ⟨sp, hsp, ⟨c, hc, hurl.symm, hsim, hall⟩, heq, ?_, ?_, ?_, ?_⟩
  · rw [heq]
  · rw [heq]
  · rw [heq]
  · rw [heq]
    simp [generationCalls, List.filter_append]

/-- The stored record "url1" is at similarity 0.95 to the new phrase: "url1" is reused and
no generation call is made. -/
theorem processPhrase_reuse_is_effect_free_witness :
    findSimilarPhrase thunderSnapshot
        [fin false 19 0, fin false 5 0, fin false 3 0, fin false 1 1, fin false 1 0] =
        .ok ⟨fin false 4278419646001971 (-52),
          some ⟨"a thunderstorm", fin false 4278419646001971 (-52), "url1"⟩⟩ ∧
      (processPhrase sampleEnv (.str "thunderstorm rumbling") thunderSnapshot emptyWorld).1 =
        .ok ⟨.str "thunderstorm rumbling", "url1"⟩ ∧
      generationCalls
        (processPhrase sampleEnv (.str "thunderstorm rumbling") thunderSnapshot
          emptyWorld).2.2.calls = 0 := by
  have hr : findSimilarPhrase thunderSnapshot
      [fin false 19 0, fin false 5 0, fin false 3 0, fin false 1 1, fin false 1 0] =
      .ok ⟨fin false 4278419646001971 (-52),
        some ⟨"a thunderstorm", fin false 4278419646001971 (-52), "url1"⟩⟩ := by decide
  obtain ⟨sp, hsp, _, heq, _, _, _, hgen⟩ :=
    processPhrase_reuse_is_effect_free sampleEnv (.str "thunderstorm rumbling")
      thunderSnapshot emptyWorld _ _ rfl hr (by decide)
  cases hsp
  exact ⟨hr, by rw [heq], hgen⟩

/-- C10, as stated, fails: a phrase list holding the empty string is not rejected; the
records are loaded, the embedding provider and the generation service are called, and the
answer is status 200. -/
theorem saveSoundEffects_accepts_empty_string :
    (saveSoundEffects sampleEnv (.array [.str ""]) emptyWorld).1 =
        .ok [⟨.str "",
          "https://storage.googleapis.com/sfx-bucket/sound_effects/_1700000000000.mp3"⟩] ∧
      (saveSoundEffects sampleEnv (.array [.str ""]) emptyWorld).2.calls =
        [Call.loadRecords, Call.embed (.str ""), Call.generate (.str ""),
          Call.saveFile "sound_effects/_1700000000000.mp3", Call.setRecord ""] := by
  decide

/-- C10, amended: the handler answers status 400, making no external call and changing
nothing, when `phrases` is absent, not an array or an empty array; the entries are not
validated: every non-empty array, whatever its entries, is not rejected with status 400 and
the handler goes on to load the records and to request the embedding of the first entry. -/
theorem saveSoundEffects_validates_list_only (env : Env) (w : World) :
    saveSoundEffects env .missing w = (.badRequest "Phrases are required", w) ∧
    saveSoundEffects env .notArray w = (.badRequest "Phrases are required", w) ∧
    saveSoundEffects env (.array []) w = (.badRequest "Phrases are required", w) ∧
    ∀ p ps, (∀ e, (saveSoundEffects env (.array (p :: ps)) w).1 ≠ .badRequest e) ∧
      ∃ more, (saveSoundEffects env (.array (p :: ps)) w).2.calls =
        w.calls ++ Call.loadRecords :: Call.embed p :: more := by
  refine ⟨rfl, rfl, rfl, ?_⟩
  intro p ps
  constructor
  · intro e
    simp only [saveSoundEffects]
    split <;> simp
  · obtain ⟨m1, h1⟩ := processPhrase_calls env p (getExistingEmbeddings w).1
      (getExistingEmbeddings w).2
    obtain ⟨m2, h2⟩ := processAll_calls env ps
      (processPhrase env p (getExistingEmbeddings w).1 (getExistingEmbeddings w).2).2.1
      (processPhrase env p (getExistingEmbeddings w).1 (getExistingEmbeddings w).2).2.2
    refine ⟨m1 ++ m2, ?_⟩
    have hcalls : (saveSoundEffects env (.array (p :: ps)) w).2.calls =
        (processAll env (p :: ps) (getExistingEmbeddings w).1
          (getExistingEmbeddings w).2).2.2.calls := by
      simp only [saveSoundEffects]
      split <;> rfl
    rw [hcalls]
    simp only [processAll]
    rw [h2, h1]
    simp [getExistingEmbeddings]

end SfxCache

namespace SfxCache
open F64

/-! ### Two successive requests for the same phrase -/

theorem setRecord_mem (key : String) (value : SoundEffect)
    (recs : List (String × SoundEffect)) : (key, value) ∈ setRecord key value recs := by
  induction recs with
  | nil => simp [setRecord]
  | cons kv rest ih =>
    obtain ⟨k, x⟩ := kv
    by_cases hk : k = key
    · simp [setRecord, hk]
    · simp only [setRecord, hk, if_false]
      exact List.mem_cons_of_mem _ ih

theorem setRecord_subset (key : String) (value : SoundEffect)
    (recs : List (String × SoundEffect)) (kv : String × SoundEffect)
    (h : kv ∈ setRecord key value recs) : kv = (key, value) ∨ kv ∈ recs := by
  induction recs with
  | nil =>
    simp only [setRecord, List.mem_singleton] at h
    exact Or.inl h
  | cons kv0 rest ih =>
    obtain ⟨k, x⟩ := kv0
    by_cases hk : k = key
    · simp only [setRecord, hk, if_true, List.mem_cons] at h
      rcases h with h | h
      · exact Or.inl h
      · exact Or.inr (List.mem_cons_of_mem _ h)
    · simp only [setRecord, hk, if_false, List.mem_cons] at h
      rcases h with h | h
      · exact Or.inr (by rw [h]; exact List.mem_cons_self _ _)
      · rcases ih h with h2 | h2
        · exact Or.inl h2
        · exact Or.inr (List.mem_cons_of_mem _ h2)

theorem saveSoundEffects_single (env : Env) (p : Entry) (w : World) :
    saveSoundEffects env (.array [p]) w =
      match (processPhrase env p (getExistingEmbeddings w).1 (getExistingEmbeddings w).2).1 with
      | .ok item =>
        (.ok [item],
          (processPhrase env p (getExistingEmbeddings w).1 (getExistingEmbeddings w).2).2.2)
      | .error err =>
        (.serverError ("Failed to save sound effects: " ++ err),
          (processPhrase env p (getExistingEmbeddings w).1 (getExistingEmbeddings w).2).2.2) := by
  simp only [saveSoundEffects, processAll, promiseAll]
  cases (processPhrase env p (getExistingEmbeddings w).1 (getExistingEmbeddings w).2).1 <;> rfl

/-- A request for one phrase whose match decision on the stored records is reuse: the answer
carries the `downloadURL` of a stored record and only the load and the embedding request
are made. -/
theorem saveSoundEffects_single_reuse (env : Env) (p : Entry) (w : World) (v : List F64)
    (r : MatchResult) (sp : SimilarPhrase)
    (hemb : env.createEmbedding p = .ok (.array v))
    (hr : findSimilarPhrase (getExistingEmbeddings w).1 v = .ok r)
    (hd : reuseDecision r = true) (hsp : r.similarPhrase = some sp) :
    saveSoundEffects env (.array [p]) w =
        (.ok [⟨p, sp.downloadURL⟩],
          { w with calls := w.calls ++ [Call.loadRecords, Call.embed p] }) ∧
      ∃ kv ∈ w.records, sp.downloadURL = kv.2.downloadURL := by
  constructor
  · rw [saveSoundEffects_single,
      processPhrase_reuse_eq env p _ _ v r sp hemb hr hd hsp]
    simp [getExistingEmbeddings]
  · obtain ⟨_, ⟨c, hc, _, _, hurl⟩, _⟩ :=
      findSimilarPhrase_best _ v r sp hr hsp
    simp only [getExistingEmbeddings, List.mem_map] at hc
    obtain ⟨kv, hkv, rfl⟩ := hc
    exact ⟨kv, hkv, hurl⟩

theorem lengths_of_ok (cands : List Candidate) (q : List F64) (r : MatchResult)
    (h : findSimilarPhrase cands q = .ok r) (c : Candidate) (hc : c ∈ cands) (u : List F64)
    (hu : c.embedding = .array u) : u.length = q.length := by
  by_contra hne
  have herr := (loop_error_iff q cands F64.zero none).mpr ⟨c, hc, u, hu, hne⟩
  unfold findSimilarPhrase at h
  rw [herr] at h
  cases h

theorem returns_of_lengths (cands : List Candidate) (q : List F64)
    (h : ∀ c ∈ cands, ∀ u, c.embedding = .array u → u.length = q.length) :
    ∃ r, findSimilarPhrase cands q = .ok r := by
  rcases loop_cases q cands F64.zero none with herr | hres
  · obtain ⟨c, hc, u, hu, hne⟩ := (loop_error_iff q cands F64.zero none).mp herr
    exact absurd (h c hc u hu) hne
  · exact hres

/-- Idempotence where the stored embedding scores above the threshold against itself: let
the phrase name a single child of `soundEffects`, let a request for this single phrase
succeed (status 200), let the provider return the same array `E` for the phrase in a second
request, and let `cosineSimilarity(E, E)` be strictly greater than 0.9. Then the second
request, run on the state left by the first, succeeds by reuse: it returns the
`downloadURL` of a stored record, calls only the record load and the embedding provider,
writes nothing, and the two requests together make at most one generation call. -/
theorem second_request_reuses_when_self_similar (env1 env2 : Env) (phrase : Entry)
    (w0 : World) (items : List Item) (E : List F64) (s : F64)
    (_hkey : isRecordKey phrase.text = true)
    (hstable : env2.createEmbedding phrase = env1.createEmbedding phrase)
    (hE : env1.createEmbedding phrase = .ok (.array E))
    (hself : cosineSimilarity (some E) (some E) = .ok s)
    (hs : F64.gt s reuseThreshold = true)
    (h1 : (saveSoundEffects env1 (.array [phrase]) w0).1 = .ok items) :
    (∃ kv ∈ (saveSoundEffects env1 (.array [phrase]) w0).2.records,
      saveSoundEffects env2 (.array [phrase]) (saveSoundEffects env1 (.array [phrase]) w0).2 =
        (.ok [⟨phrase, kv.2.downloadURL⟩],
          { (saveSoundEffects env1 (.array [phrase]) w0).2 with
            calls := (saveSoundEffects env1 (.array [phrase]) w0).2.calls ++
              [Call.loadRecords, Call.embed phrase] })) ∧
      generationCalls
          (saveSoundEffects env2 (.array [phrase])
            (saveSoundEffects env1 (.array [phrase]) w0).2).2.calls =
        generationCalls (saveSoundEffects env1 (.array [phrase]) w0).2.calls ∧
      generationCalls (saveSoundEffects env1 (.array [phrase]) w0).2.calls ≤
        generationCalls w0.calls + 1 := by
  have hE2 : env2.createEmbedding phrase = .ok (.array E) := by rw [hstable, hE]
  -- what the first request did
  rw [saveSoundEffects_single] at h1
  cases hp : (processPhrase env1 phrase (getExistingEmbeddings w0).1
      (getExistingEmbeddings w0).2).1 with
  | error err => rw [hp] at h1; cases h1
  | ok item =>
    obtain ⟨v, r0, hv, hr0, hcase⟩ := processPhrase_ok_cases env1 phrase _ _ item hp
    rw [hE] at hv
    cases hv
    -- it is enough to find a reuse on the records left by the first request
    suffices hfind : ∃ r1, findSimilarPhrase
          (getExistingEmbeddings (saveSoundEffects env1 (.array [phrase]) w0).2).1 E = .ok r1 ∧
        reuseDecision r1 = true ∧
        generationCalls (saveSoundEffects env1 (.array [phrase]) w0).2.calls ≤
          generationCalls w0.calls + 1 by
      obtain ⟨r1, hr1, hd1, hgen⟩ := hfind
      obtain ⟨sp, hsp1⟩ := similarPhrase_of_decision r1 hd1
      obtain ⟨heq, kv, hkv, hurl⟩ :=
        saveSoundEffects_single_reuse env2 phrase _ E r1 sp hE2 hr1 hd1 hsp1
      refine ⟨⟨kv, hkv, ?_⟩, ?_, hgen⟩
      · rw [heq, hurl]
      · rw [heq]
        simp [generationCalls, List.filter_append]
    rcases hcase with hd0 | ⟨hd0, audio, hg⟩
    · -- the first request was itself a reuse: the records are untouched
      obtain ⟨sp0, hsp0⟩ := similarPhrase_of_decision r0 hd0
      have hw : saveSoundEffects env1 (.array [phrase]) w0 =
          (.ok [⟨phrase, sp0.downloadURL⟩],
            { w0 with calls := w0.calls ++ [Call.loadRecords, Call.embed phrase] }) :=
        (saveSoundEffects_single_reuse env1 phrase w0 E r0 sp0 hE hr0 hd0 hsp0).1
      rw [hw]
      refine ⟨r0, hr0, hd0, ?_⟩
      simp [generationCalls, List.filter_append]
    · -- the first request generated and stored the record of the phrase
      have hw : (saveSoundEffects env1 (.array [phrase]) w0).2 =
          (processPhrase env1 phrase (getExistingEmbeddings w0).1
            (getExistingEmbeddings w0).2).2.2 := by
        rw [saveSoundEffects_single, hp]
      rw [hw, processPhrase_generate_eq env1 phrase _ _ E r0 audio hE hr0 hd0 hg]
      have hlen : ∀ c ∈ (getExistingEmbeddings w0).1, ∀ u, c.embedding = .array u →
          u.length = E.length := fun c hc u hu => lengths_of_ok _ E r0 hr0 c hc u hu
      generalize hurl : "https://storage.googleapis.com/" ++ env1.bucketName ++ "/" ++
        ("sound_effects/" ++ phrase.text ++ "_" ++ toString env1.dateNow ++ ".mp3") = url
      generalize hfile :
        "sound_effects/" ++ phrase.text ++ "_" ++ toString env1.dateNow ++ ".mp3" = file
      -- the scan of the new records cannot fail
      have hok : ∃ r1, findSimilarPhrase
          ((setRecord phrase.text ⟨phrase, env1.dateNow, url, .array E⟩
            (getExistingEmbeddings w0).2.records).map
              (fun kv => (⟨kv.1, kv.2.embedding, kv.2.downloadURL⟩ : Candidate))) E =
            .ok r1 := by
        apply returns_of_lengths
        intro c hc u hu
        obtain ⟨kv, hkv, hkc⟩ := List.mem_map.mp hc
        subst hkc
        rcases setRecord_subset _ _ _ kv hkv with hnew | hold
        · subst hnew
          have hu2 : E = u := by simpa using hu
          rw [← hu2]
        · exact hlen ⟨kv.1, kv.2.embedding, kv.2.downloadURL⟩
            (by simp only [getExistingEmbeddings, List.mem_map]; exact ⟨kv, hold, rfl⟩) u hu
      obtain ⟨r1, hr1⟩ := hok
      have hmem : (⟨phrase.text, .array E, url⟩ : Candidate) ∈
          (setRecord phrase.text ⟨phrase, env1.dateNow, url, .array E⟩
            (getExistingEmbeddings w0).2.records).map
              (fun kv => (⟨kv.1, kv.2.embedding, kv.2.downloadURL⟩ : Candidate)) :=
        List.mem_map.mpr ⟨_, setRecord_mem _ _ _, rfl⟩
      have hd1 := reuseDecision_of_candidate _ E r1 _ s hr1 hmem
        (similarityOf_array E _ E s rfl hself) hs
      refine ⟨r1, ?_, hd1, ?_⟩
      · simpa [getExistingEmbeddings] using hr1
      · simp [generationCalls, List.filter_append, getExistingEmbeddings]

/-- A first request for "rain" on an empty store generates; the second one makes no further
generation call. -/
theorem second_request_reuses_when_self_similar_witness :
    (saveSoundEffects sampleEnv (.array [.str "rain"]) emptyWorld).1 =
        .ok [⟨.str "rain",
          "https://storage.googleapis.com/sfx-bucket/sound_effects/rain_1700000000000.mp3"⟩] ∧
      cosineSimilarity
          (some [fin false 19 0, fin false 5 0, fin false 3 0, fin false 1 1, fin false 1 0])
          (some [fin false 19 0, fin false 5 0, fin false 3 0, fin false 1 1, fin false 1 0]) =
        .ok (fin false 1 0) ∧
      generationCalls
          (saveSoundEffects sampleEnv (.array [.str "rain"])
            (saveSoundEffects sampleEnv (.array [.str "rain"]) emptyWorld).2).2.calls =
        generationCalls (saveSoundEffects sampleEnv (.array [.str "rain"]) emptyWorld).2.calls :=
  ⟨by decide, by decide,
    (second_request_reuses_when_self_similar sampleEnv sampleEnv (.str "rain") emptyWorld
      [⟨.str "rain",
        "https://storage.googleapis.com/sfx-bucket/sound_effects/rain_1700000000000.mp3"⟩]
      [fin false 19 0, fin false 5 0, fin false 3 0, fin false 1 1, fin false 1 0]
      (fin false 1 0) (by decide) rfl rfl (by decide) (by decide) (by decide)).2.1⟩

/-- C9 fails on the code: the provider returns the zero vector `[0]` for the phrase "rain"
both times and the store starts empty. The first request answers status 200 and stores the
record; the second, five seconds later, finds similarity NaN to it (0 divided by 0 in
`cosineSimilarity`), so the match is null, the decision is not reuse and the sound is
generated again: the two requests make two generation calls and the second one saves and
returns a new asset. -/
theorem second_request_regenerates_for_zero_vector :
    isRecordKey "rain" = true ∧
      zeroEnvLater.createEmbedding (.str "rain") = zeroEnv.createEmbedding (.str "rain") ∧
      (saveSoundEffects zeroEnv (.array [.str "rain"]) emptyWorld).1 =
        .ok [⟨.str "rain",
          "https://storage.googleapis.com/sfx-bucket/sound_effects/rain_1700000000000.mp3"⟩] ∧
      (getExistingEmbeddings
          (saveSoundEffects zeroEnv (.array [.str "rain"]) emptyWorld).2).1 =
        [⟨"rain", .array [F64.zero],
          "https://storage.googleapis.com/sfx-bucket/sound_effects/rain_1700000000000.mp3"⟩] ∧
      cosineSimilarity (some [F64.zero]) (some [F64.zero]) = .ok nan ∧
      findSimilarPhrase
          (getExistingEmbeddings
            (saveSoundEffects zeroEnv (.array [.str "rain"]) emptyWorld).2).1 [F64.zero] =
        .ok ⟨F64.zero, none⟩ ∧
      reuseDecision ⟨F64.zero, none⟩ = false ∧
      (saveSoundEffects zeroEnvLater (.array [.str "rain"])
          (saveSoundEffects zeroEnv (.array [.str "rain"]) emptyWorld).2).1 =
        .ok [⟨.str "rain",
          "https://storage.googleapis.com/sfx-bucket/sound_effects/rain_1700000005000.mp3"⟩] ∧
      (saveSoundEffects zeroEnvLater (.array [.str "rain"])
          (saveSoundEffects zeroEnv (.array [.str "rain"]) emptyWorld).2).2.calls =
        [Call.loadRecords, Call.embed (.str "rain"), Call.generate (.str "rain"),
          Call.saveFile "sound_effects/rain_1700000000000.mp3", Call.setRecord "rain",
          Call.loadRecords, Call.embed (.str "rain"), Call.generate (.str "rain"),
          Call.saveFile "sound_effects/rain_1700000005000.mp3", Call.setRecord "rain"] ∧
      generationCalls
          (saveSoundEffects zeroEnvLater (.array [.str "rain"])
            (saveSoundEffects zeroEnv (.array [.str "rain"]) emptyWorld).2).2.calls = 2 := by
  decide

end SfxCache
